import Mathlib

set_option maxRecDepth 16000

/-!
Verification of the treasuretto account-security core: the TOTP engine and
Base32 codec (`src/lib/totp.ts`), the enhanced auth middleware's lockout and
session logic (`src/lib/enhanced-auth.ts`), the rate limiter
(`src/lib/security.ts`, `src/lib/advanced-security.ts`), the advanced security
gate's two-factor step (`src/lib/advanced-security.ts`) and the page middleware
(`src/middleware.ts`), and the backup-code consumption protocol
(`src/app/api/2fa/verify-backup/route.ts`).

Byte buffers are `List Nat` (each element < 256), strings are Lean `String`,
timestamps are milliseconds as `Nat`.  JavaScript 32-bit bitwise wrap-around is
modelled by explicit `% 4294967296`; `Buffer.writeBigUInt64BE`'s RangeError on
out-of-range counters is modelled by `Option`.
-/

namespace Treasuretto

/-- 2^32, the modulus of JavaScript's 32-bit integer coercions. -/
def M32 : Nat := 4294967296

/-! ## SHA-1 and HMAC-SHA1

The repository calls Node's `crypto.createHmac('sha1', key)`.  This section is
a pure reference implementation of that platform primitive: SHA-1 per
FIPS 180-1 and HMAC per RFC 2104, over byte lists. -/

/-- Left rotation of a 32-bit word (`x < 2^32`). -/
def rotl32 (x n : Nat) : Nat := (x * 2 ^ n + x / 2 ^ (32 - n)) % M32

/-- The SHA-1 round function: Ch, Parity, Maj, Parity on the four quarters. -/
def sha1F (t b c d : Nat) : Nat :=
  if t < 20 then (b &&& c) ||| ((b ^^^ 4294967295) &&& d)
  else if t < 40 then b ^^^ c ^^^ d
  else if t < 60 then (b &&& c) ||| (b &&& d) ||| (c &&& d)
  else b ^^^ c ^^^ d

/-- The SHA-1 round constants. -/
def sha1K (t : Nat) : Nat :=
  if t < 20 then 0x5A827999
  else if t < 40 then 0x6ED9EBA1
  else if t < 60 then 0x8F1BBCDC
  else 0xCA62C1D6

/-- Combine big-endian bytes, four at a time, into 32-bit words. -/
def wordsOfBytes : List Nat → List Nat
  | b0 :: b1 :: b2 :: b3 :: rest =>
      (((b0 * 256 + b1) * 256 + b2) * 256 + b3) :: wordsOfBytes rest
  | _ => []

/-- Split a word list into 16-word blocks (the input length is a multiple of
16 for padded SHA-1 input; a short final fragment would be kept as-is). -/
def chunks16 : List Nat → List (List Nat)
  | [] => []
  | w0 :: w1 :: w2 :: w3 :: w4 :: w5 :: w6 :: w7 ::
    w8 :: w9 :: w10 :: w11 :: w12 :: w13 :: w14 :: w15 :: rest =>
      [w0, w1, w2, w3, w4, w5, w6, w7, w8, w9, w10, w11, w12, w13, w14, w15] ::
        chunks16 rest
  | other => [other]

/-- Message-schedule expansion: the accumulator holds the schedule words most
recent first; each step prepends `ROTL1(w₋₃ ⊕ w₋₈ ⊕ w₋₁₄ ⊕ w₋₁₆)`. -/
def sha1Extend : Nat → List Nat → List Nat
  | 0, ws => ws
  | fuel + 1, ws =>
      sha1Extend fuel
        (rotl32 ((ws.getD 2 0) ^^^ (ws.getD 7 0) ^^^ (ws.getD 13 0) ^^^ (ws.getD 15 0)) 1 :: ws)

/-- The 80-word message schedule of one 16-word block. -/
def sha1Schedule (block : List Nat) : List Nat :=
  (sha1Extend 64 block.reverse).reverse

/-- The 80 compression rounds, folding over the schedule. -/
def sha1Rounds : List Nat → Nat → Nat × Nat × Nat × Nat × Nat → Nat × Nat × Nat × Nat × Nat
  | [], _, st => st
  | w :: ws, t, (a, b, c, d, e) =>
      sha1Rounds ws (t + 1)
        ((rotl32 a 5 + sha1F t b c d + e + sha1K t + w) % M32, a, rotl32 b 30, c, d)

/-- Process one block: run the 80 rounds and add the result into the state. -/
def sha1Block (st : Nat × Nat × Nat × Nat × Nat) (block : List Nat) :
    Nat × Nat × Nat × Nat × Nat :=
  match st, sha1Rounds (sha1Schedule block) 0 st with
  | (h0, h1, h2, h3, h4), (a, b, c, d, e) =>
      ((h0 + a) % M32, (h1 + b) % M32, (h2 + c) % M32, (h3 + d) % M32, (h4 + e) % M32)

/-- The SHA-1 initial state. -/
def sha1Init : Nat × Nat × Nat × Nat × Nat :=
  (0x67452301, 0xEFCDAB89, 0x98BADCFE, 0x10325476, 0xC3D2E1F0)

/-- Big-endian 8-byte encoding of a 64-bit value (`Buffer.writeBigUInt64BE`). -/
def u64be (n : Nat) : List Nat :=
  [n / 72057594037927936 % 256, n / 281474976710656 % 256,
   n / 1099511627776 % 256, n / 4294967296 % 256,
   n / 16777216 % 256, n / 65536 % 256, n / 256 % 256, n % 256]

/-- FIPS 180-1 padding: `0x80`, zeros, then the 64-bit big-endian bit length,
to a multiple of 64 bytes. -/
def sha1Pad (msg : List Nat) : List Nat :=
  msg ++ 0x80 :: (List.replicate ((119 - msg.length % 64) % 64) 0 ++ u64be (8 * msg.length))

/-- Big-endian byte decomposition of a 32-bit word. -/
def wordBytes (w : Nat) : List Nat :=
  [w / 16777216 % 256, w / 65536 % 256, w / 256 % 256, w % 256]

/-- SHA-1 of a byte list, as a 20-byte list. -/
def sha1 (msg : List Nat) : List Nat :=
  match (chunks16 (wordsOfBytes (sha1Pad msg))).foldl sha1Block sha1Init with
  | (h0, h1, h2, h3, h4) =>
      wordBytes h0 ++ wordBytes h1 ++ wordBytes h2 ++ wordBytes h3 ++ wordBytes h4

/-- HMAC-SHA1 (RFC 2104): keys longer than the 64-byte block are hashed first,
then zero-padded; inner pad `0x36`, outer pad `0x5c`. -/
def hmacSha1 (key msg : List Nat) : List Nat :=
  let k0 := if 64 < key.length then sha1 key else key
  let kp := k0 ++ List.replicate (64 - k0.length) 0
  sha1 ((kp.map (fun b => b ^^^ 0x5c)) ++ sha1 ((kp.map (fun b => b ^^^ 0x36)) ++ msg))

/-! ## Base32 codec (`src/lib/totp.ts` lines 4-49) -/

/-- `BASE32_ALPHABET`: the RFC 4648 Base32 alphabet. -/
def base32Alphabet : List Char := "ABCDEFGHIJKLMNOPQRSTUVWXYZ234567".toList

/-- The encoder's inner `while (bits >= 5)` loop: emit the top five bits of
the accumulator as one symbol per iteration.  The loop runs at most
`bits / 5` times, so fuel `bits` suffices; it returns the emitted symbols and
the remaining bit count (`value` is not consumed by the loop). -/
def b32EmitLoop : Nat → Nat → Nat → List Nat × Nat
  | 0, _, bits => ([], bits)
  | fuel + 1, value, bits =>
      if 5 ≤ bits then
        let s := (value >>> (bits - 5)) &&& 31
        let (rest, bits') := b32EmitLoop fuel value (bits - 5)
        (s :: rest, bits')
      else ([], bits)

/-- The encoder's byte loop (`base32Encode` lines 11-19): shift each byte into
the 32-bit accumulator (JavaScript `(value << 8) | b` wraps at 2^32) and emit
all complete 5-bit symbols.  Returns the symbols and the final accumulator
state. -/
def b32EncLoop : List Nat → Nat → Nat → List Nat × Nat × Nat
  | [], value, bits => ([], value, bits)
  | b :: bs, value, bits =>
      let v := ((value <<< 8) ||| b) % M32
      let (syms, bits') := b32EmitLoop (bits + 8) v (bits + 8)
      let (rest, v', b') := b32EncLoop bs v bits'
      (syms ++ rest, v', b')

/-- The final partial symbol `(value << (5 - bits)) & 31` emitted when
`bits > 0` (lines 21-23); the JavaScript shift wraps at 2^32 before the
mask. -/
def b32FinalChunk (value bits : Nat) : List Nat :=
  if 0 < bits then [((value <<< (5 - bits)) % M32) &&& 31] else []

/-- `base32Encode` as a symbol list: the byte loop followed by the final
partial symbol. -/
def base32EncodeSyms (bs : List Nat) : List Nat :=
  match b32EncLoop bs 0 0 with
  | (syms, value, bits) => syms ++ b32FinalChunk value bits

/-- `base32Encode` (lines 6-27): render each 5-bit symbol through the
alphabet; no `=` padding is emitted. -/
def base32Encode (bs : List Nat) : String :=
  ((base32EncodeSyms bs).map (fun i => base32Alphabet.getD i 'A')).asString

/-- `BASE32_ALPHABET.indexOf(c)`, as an `Option` (`none` for `-1`). -/
def alphaIdx (c : Char) : Option Nat :=
  base32Alphabet.findIdx? (fun a => a == c)

/-- `input.toUpperCase().replace(/=+$/g, '')`: strip every trailing `=`. -/
def stripTrailingEq (cs : List Char) : List Char :=
  (cs.reverse.dropWhile (fun c => c == '=')).reverse

/-- The decoder's character loop (`base32Decode` lines 35-46): skip characters
outside the alphabet; shift each symbol into the accumulator (wrapping at
2^32); whenever eight bits are available, emit `(value >>> (bits-8)) & 0xff`
as an output byte. -/
def b32DecLoop : List Char → Nat → Nat → List Nat
  | [], _, _ => []
  | c :: cs, value, bits =>
      match alphaIdx c with
      | none => b32DecLoop cs value bits
      | some idx =>
          let v := ((value <<< 5) ||| idx) % M32
          let bits' := bits + 5
          if 8 ≤ bits' then ((v >>> (bits' - 8)) &&& 255) :: b32DecLoop cs v (bits' - 8)
          else b32DecLoop cs v bits'

/-- `base32Decode` (lines 29-49): uppercase, strip trailing `=`, then run the
character loop.  Total: malformed input degrades to best-effort bytes. -/
def base32Decode (s : String) : List Nat :=
  b32DecLoop (stripTrailingEq (s.toList.map Char.toUpper)) 0 0

/-! ## TOTP engine (`src/lib/totp.ts` lines 51-139) -/

/-- JavaScript `String.prototype.padStart(n, c)`: left-pad to length `n`
(strings already at least `n` long are returned unchanged). -/
def padStart (s : String) (n : Nat) (c : Char) : String :=
  (List.replicate (n - s.length) c ++ s.toList).asString

/-- The dynamic-truncation value of `TOTP.generateCodeForCounter`
(lines 84-88): `offset` is the low four bits of the last HMAC byte; the code
is four bytes at `offset`, the first masked with `0x7f`, combined big-endian
with JavaScript shift/or. -/
def hotpTruncate (hash : List Nat) : Nat :=
  let offset := hash.getD (hash.length - 1) 0 &&& 0xf
  ((((hash.getD offset 0 &&& 0x7f) <<< 24) |||
    ((hash.getD (offset + 1) 0 &&& 0xff) <<< 16)) |||
    ((hash.getD (offset + 2) 0 &&& 0xff) <<< 8)) |||
    (hash.getD (offset + 3) 0 &&& 0xff)

/-- The body of `TOTP.generateCodeForCounter` (lines 75-91) for an in-range
counter: HMAC-SHA1 the 8-byte big-endian counter under the Base32-decoded
secret, dynamically truncate, and render `code % 10^6` with
`.toString().padStart(6, '0')`. -/
def hotp (secret : String) (counter : Nat) : String :=
  let key := base32Decode secret
  let hash := hmacSha1 key (u64be counter)
  padStart (Nat.repr (hotpTruncate hash % 1000000)) 6 '0'

/-- `TOTP.generateCodeForCounter(secret, counter)`:
`Buffer.writeBigUInt64BE(BigInt(counter))` raises `ERR_OUT_OF_RANGE` unless
`0 ≤ counter < 2^64`, modelled as `none`; in range the code is `hotp`. -/
def generateCodeForCounter (secret : String) (counter : Int) : Option String :=
  if 0 ≤ counter ∧ counter < 18446744073709551616 then some (hotp secret counter.toNat)
  else none

/-- `TOTP.generateCode(secret, time?)` (lines 67-70): the counter is
`Math.floor((time || Date.now()) / 1000 / 30)`.  `time` is falsy when it is
`0` or omitted, so both fall back to the clock argument `nowMs`. -/
def generateCode (secret : String) (time nowMs : Nat) : Option String :=
  generateCodeForCounter secret (((if time = 0 then nowMs else time) / 1000 / 30 : Nat))

/-- The verifier's loop over candidate counters (lines 99-104): return `true`
at the first exact string match, `false` when the window is exhausted;
an out-of-range counter raises (propagates `none`). -/
def verifyLoop (secret code : String) : List Int → Option Bool
  | [] => some false
  | i :: rest =>
      (generateCodeForCounter secret i).bind fun expected =>
        if expected = code then some true else verifyLoop secret code rest

/-- The candidate counters `now - tolerance .. now + tolerance`, in loop
order. -/
def windowCounters (now : Nat) (tolerance : Nat) : List Int :=
  (List.range (2 * tolerance + 1)).map (fun k => (now : Int) - tolerance + k)

/-- `TOTP.verifyCode(secret, code, tolerance)` (lines 96-107) with the call
to `Date.now()` made explicit as `nowMs`. -/
def verifyCode (secret code : String) (tolerance : Nat) (nowMs : Nat) : Option Bool :=
  verifyLoop secret code (windowCounters (nowMs / 1000 / 30) tolerance)

/-- Characters matched by the JavaScript `\s` class (ASCII part; the TOTP
backup codes and route inputs are ASCII). -/
def jsWhitespace (c : Char) : Bool :=
  c == ' ' || c == '\t' || c == '\n' || c == '\r' || c == '\x0b' || c == '\x0c'

/-- `providedCode.toUpperCase().replace(/\s/g, '')` of
`TOTP.verifyBackupCode` (line 136). -/
def normalizeBackupCode (s : String) : String :=
  ((s.toList.map Char.toUpper).filter (fun c => !jsWhitespace c)).asString

/-- `code.toUpperCase()` (used by the verify-backup route's removal filter). -/
def upperCode (s : String) : String := (s.toList.map Char.toUpper).asString

/-- `TOTP.verifyBackupCode(providedCode, storedCodes)` (lines 135-138). -/
def verifyBackupCode (providedCode : String) (storedCodes : List String) : Bool :=
  storedCodes.contains (normalizeBackupCode providedCode)

/-- The verify-backup route's removal step
(`src/app/api/2fa/verify-backup/route.ts` line 36): keep the stored codes
that differ from the uppercased submission. -/
def removeBackupCode (providedCode : String) (storedCodes : List String) : List String :=
  storedCodes.filter (fun c => c ≠ upperCode providedCode)

/-! ### Spec-side HOTP (§4.2 `codeForCounter`), for the C1 refinement

Written from the spec's words: "decode secret to raw key bytes; compute
`HMAC-SHA1(key, bigEndianUint64(counter))`; take the low 4 bits of the last
hash byte as a dynamic offset; extract 4 bytes at that offset masked to
31 bits as a big-endian integer; result is `(value mod 10^6)`, left-padded
with zeros to 6 digits." -/

/-- The spec's truncated value: four bytes at the dynamic offset as a
big-endian integer, masked to 31 bits. -/
def hotpSpecValue (hash : List Nat) : Nat :=
  let offset := hash.getD (hash.length - 1) 0 % 16
  (hash.getD offset 0 * 16777216 + hash.getD (offset + 1) 0 * 65536 +
    hash.getD (offset + 2) 0 * 256 + hash.getD (offset + 3) 0) % 2147483648

/-- §4.2 `codeForCounter(secret, counter)`: the RFC 6238/4226 value as the
spec states it. -/
def codeForCounterSpec (secret : String) (counter : Nat) : String :=
  let key := base32Decode secret
  let hash := hmacSha1 key (u64be counter)
  padStart (Nat.repr (hotpSpecValue hash % 1000000)) 6 '0'

/-! ## Rate limiter (`src/lib/security.ts` lines 94-127,
`src/lib/advanced-security.ts` lines 177-215)

Both `checkRateLimit` bodies are identical on the `allowed`/`retryAfter`
state machine (the advanced one additionally reports `remaining`).  The
store entry for one `clientIp:endpoint` key is modelled directly; the
`windowMs`/`maxRequests` config fallback is resolved into parameters. -/

/-- One `rateLimitStore` entry. -/
structure RLEntry where
  count : Nat
  resetTime : Nat
  deriving DecidableEq, Repr

/-- The outcome of one `checkRateLimit` call. -/
structure RLResult where
  allowed : Bool
  retryAfter : Option Nat
  store : Option RLEntry
  deriving DecidableEq, Repr

/-- `checkRateLimit` for one key: initialize the window on a missing or
expired entry (`!current || now > current.resetTime`); reject with
`Math.ceil((resetTime - now) / 1000)` once `count >= maxRequests`; otherwise
increment. -/
def checkRateLimit (store : Option RLEntry) (now windowMs maxRequests : Nat) : RLResult :=
  match store with
  | none => ⟨true, none, some ⟨1, now + windowMs⟩⟩
  | some current =>
      if current.resetTime < now then ⟨true, none, some ⟨1, now + windowMs⟩⟩
      else if maxRequests ≤ current.count then
        ⟨false, some ((current.resetTime - now + 999) / 1000), some current⟩
      else ⟨true, none, some ⟨current.count + 1, current.resetTime⟩⟩

/-- Run a sequence of requests (call times, in order) against one key's
store, collecting each call's `allowed` flag and threading the store. -/
def rlRun (windowMs maxRequests : Nat) : List Nat → Option RLEntry → List Bool × Option RLEntry
  | [], store => ([], store)
  | t :: ts, store =>
      let r := checkRateLimit store t windowMs maxRequests
      let (flags, final) := rlRun windowMs maxRequests ts r.store
      (r.allowed :: flags, final)

/-! ## Account lockout tracker (`src/lib/enhanced-auth.ts` lines 83-162) -/

/-- One `account_lockouts` row.  `lockedUntil = none` is SQL `NULL`. -/
structure LockoutRec where
  failedAttempts : Nat
  lockedUntil : Option Nat
  lastAttempt : Nat
  ipAddress : String
  deriving DecidableEq, Repr

/-- The result triple of `checkAccountLockout`. -/
structure LockoutStatus where
  locked : Bool
  remainingTime : Nat
  failedAttempts : Nat
  deriving DecidableEq, Repr

/-- `new Date(x).getTime()` for a nullable timestamp: JavaScript coerces
`null` to `0` (the Unix epoch). -/
def jsDateMs (t : Option Nat) : Nat := t.getD 0

/-- `checkAccountLockout(userId)` (lines 83-116): no record means not locked;
otherwise compare `now` with `new Date(locked_until).getTime()` and delete
the record (returning not-locked) when the expiry is not in the future.
Returns the status and the record after the call. -/
def checkAccountLockout (rec : Option LockoutRec) (now : Nat) :
    LockoutStatus × Option LockoutRec :=
  match rec with
  | none => (⟨false, 0, 0⟩, none)
  | some r =>
      let lockoutExpiry := jsDateMs r.lockedUntil
      if now < lockoutExpiry then (⟨true, lockoutExpiry - now, r.failedAttempts⟩, some r)
      else (⟨false, 0, 0⟩, none)

/-- `LOCKOUT_CONFIG`: 5 attempts, 15-minute lockout. -/
def maxFailedAttempts : Nat := 5

/-- `LOCKOUT_CONFIG.lockoutDuration` in milliseconds. -/
def lockoutDuration : Nat := 900000

/-- `recordFailedAttempt(userId, ip)` (lines 121-152): increment the counter
(from 0 when no record exists), set `locked_until = now + 15min` when the new
count reaches the threshold and `null` otherwise, and upsert with the current
time and IP. -/
def recordFailedAttempt (rec : Option LockoutRec) (now : Nat) (ip : String) : LockoutRec :=
  let failedAttempts := (match rec with | some r => r.failedAttempts | none => 0) + 1
  { failedAttempts := failedAttempts
    lockedUntil := if maxFailedAttempts ≤ failedAttempts then some (now + lockoutDuration) else none
    lastAttempt := now
    ipAddress := ip }

/-- `clearFailedAttempts(userId)` (lines 157-162): delete the record. -/
def clearFailedAttempts (_rec : Option LockoutRec) : Option LockoutRec := none

/-! ## Session registry (`src/lib/enhanced-auth.ts` lines 58-62, 167-197) -/

/-- One `user_sessions` row for the account under consideration. -/
structure Session where
  id : Nat
  lastActivity : Nat
  isActive : Bool
  deriving DecidableEq, Repr

/-- `SESSION_CONFIG.maxConcurrentSessions`. -/
def maxConcurrentSessions : Nat := 5

/-- `getActiveSessionCount` (lines 167-175): rows with `is_active = true`. -/
def getActiveSessionCount (sessions : List Session) : Nat :=
  (sessions.filter (fun s => s.isActive)).length

/-- The `order('last_activity', { ascending: false })` comparator. -/
def byActivityDesc (a b : Session) : Prop := b.lastActivity ≤ a.lastActivity

instance : DecidableRel byActivityDesc := fun _ _ => Nat.decLe _ _

/-- `terminateOldestSessions(userId, keepCount)` (lines 180-197): load the
active sessions ordered by `last_activity` descending, and if more than
`keepCount` remain, set `is_active = false` on every session after the first
`keepCount`.  (With distinct `last_activity` values the database order is
unique; ties are resolved as by insertion sort.) -/
def terminateOldestSessions (keepCount : Nat) (sessions : List Session) : List Session :=
  let sorted := List.insertionSort byActivityDesc (sessions.filter (fun s => s.isActive))
  if keepCount < sorted.length then
    let sessionIds := (sorted.drop keepCount).map (fun s => s.id)
    sessions.map (fun s => if sessionIds.contains s.id then { s with isActive := false } else s)
  else sessions

/-- The concurrent-session step of `checkAuth` (lines 58-62): terminate down
to `maxConcurrentSessions` only when the active count exceeds it. -/
def enforceSessionCap (sessions : List Session) : List Session :=
  if maxConcurrentSessions < getActiveSessionCount sessions then
    terminateOldestSessions maxConcurrentSessions sessions
  else sessions

/-! ## Security gate two-factor step -/

/-- The two-factor step of `AdvancedSecurityMiddleware.handle`
(`src/lib/advanced-security.ts` lines 98-115), for an authenticated user:
`checkTwoFactorAuth` only reads `two_factor_auth.is_enabled`; the request is
denied with 403 exactly when the config requires 2FA and the flag is false.
The session's 2FA marker and any submitted code are listed as arguments to
record that this step never consults them. -/
def gateTwoFactorStep (require2FA enabled _marker _validCodeSubmitted : Bool) : Option Nat :=
  if require2FA && !enabled then some 403 else none

/-- The 2FA enforcement of `src/middleware.ts` (lines 51-70) for a sensitive
route with an authenticated user: when the account's credential is enabled
and the `two_factor_ok` cookie is not `'1'`, redirect to `/two-factor-auth`;
`none` means fall through. -/
def middlewareTwoFactorStep (tfaEnabled twoFactorOkCookie : Bool) : Option String :=
  if tfaEnabled && !twoFactorOkCookie then some "/two-factor-auth" else none

/-! ## Arithmetic bridges for the JavaScript bitwise operators -/

theorem and15_eq (x : Nat) : x &&& 15 = x % 16 := by
  have h := Nat.and_pow_two_sub_one_eq_mod x 4
  norm_num at h
  exact h

theorem and31_eq (x : Nat) : x &&& 31 = x % 32 := by
  have h := Nat.and_pow_two_sub_one_eq_mod x 5
  norm_num at h
  exact h

theorem and127_eq (x : Nat) : x &&& 127 = x % 128 := by
  have h := Nat.and_pow_two_sub_one_eq_mod x 7
  norm_num at h
  exact h

theorem and255_eq (x : Nat) : x &&& 255 = x % 256 := by
  have h := Nat.and_pow_two_sub_one_eq_mod x 8
  norm_num at h
  exact h

theorem or_eq_add_pow (i a b : Nat) (h : b < 2 ^ i) : (a * 2 ^ i) ||| b = a * 2 ^ i + b := by
  calc a * 2 ^ i ||| b = 2 ^ i * a ||| b := by rw [Nat.mul_comm]
    _ = 2 ^ i * a + b := (Nat.mul_add_lt_is_or h a).symm
    _ = a * 2 ^ i + b := by rw [Nat.mul_comm]

theorem shl_or_eq (k v b : Nat) (h : b < 2 ^ k) : (v <<< k) ||| b = v * 2 ^ k + b := by
  rw [Nat.shiftLeft_eq]
  exact or_eq_add_pow k v b h

theorem shl8_or_eq (v b : Nat) (h : b < 256) : (v <<< 8) ||| b = v * 256 + b := by
  have := shl_or_eq 8 v b (by norm_num; omega)
  norm_num at this
  exact this

theorem shl5_or_eq (v b : Nat) (h : b < 32) : (v <<< 5) ||| b = v * 32 + b := by
  have := shl_or_eq 5 v b (by norm_num; omega)
  norm_num at this
  exact this

theorem shr_eq_div (v k : Nat) : v >>> k = v / 2 ^ k := Nat.shiftRight_eq_div_pow v k

/-- Every byte in a `wordBytes` decomposition is below 256. -/
theorem mem_wordBytes_lt {x w : Nat} (hx : x ∈ wordBytes w) : x < 256 := by
  simp only [wordBytes, List.mem_cons, List.not_mem_nil, or_false] at hx
  rcases hx with h | h | h | h <;> subst h <;> exact Nat.mod_lt _ (by norm_num)

/-- Every SHA-1 output byte is below 256. -/
theorem mem_sha1_lt {x : Nat} (m : List Nat) (hx : x ∈ sha1 m) : x < 256 := by
  rw [sha1] at hx
  rcases (chunks16 (wordsOfBytes (sha1Pad m))).foldl sha1Block sha1Init with ⟨a, b, c, d, e⟩
  simp only [List.mem_append] at hx
  rcases hx with ((((h | h) | h) | h) | h) <;> exact mem_wordBytes_lt h

theorem getD_lt_of_forall (l : List Nat) (i : Nat) (h : ∀ x ∈ l, x < 256) : l.getD i 0 < 256 := by
  rw [List.getD_eq_getElem?_getD]
  cases hg : l[i]? with
  | none => simp
  | some x => simpa using h x (List.getElem?_mem hg)

/-- Every HMAC-SHA1 output byte position reads below 256. -/
theorem hmac_getD_lt (key m : List Nat) (i : Nat) : (hmacSha1 key m).getD i 0 < 256 :=
  getD_lt_of_forall _ _ (fun _ hx => mem_sha1_lt _ hx)

/-! ## Decimal rendering -/

theorem toDigitsCore_length_le :
    ∀ (fuel n k : Nat) (acc : List Char), n < 10 ^ k → 1 ≤ k →
      (Nat.toDigitsCore 10 fuel n acc).length ≤ acc.length + k := by
  intro fuel
  induction fuel with
  | zero => intro n k acc _ hk; simp [Nat.toDigitsCore]
  | succ fuel ih =>
      intro n k acc hn hk
      rw [Nat.toDigitsCore]
      by_cases hz : n / 10 = 0
      · simp only [hz, if_pos rfl]
        simp
        omega
      · simp only [if_neg hz]
        have hk2 : 2 ≤ k := by
          by_contra hlt
          have : k = 1 := by omega
          subst this
          simp at hn
          omega
        have hsub : n / 10 < 10 ^ (k - 1) := by
          have hpow : 10 ^ k = 10 ^ (k - 1) * 10 := by
            rw [← Nat.pow_succ]
            congr 1
            omega
          rw [Nat.div_lt_iff_lt_mul (by norm_num)]
          omega
        have := ih (n / 10) (k - 1) (Nat.digitChar (n % 10) :: acc) hsub (by omega)
        simp at this ⊢
        omega

/-- `n.toString()` for `n < 10^6` has at most six characters. -/
theorem repr_length_le_six (n : Nat) (h : n < 1000000) : (Nat.repr n).length ≤ 6 := by
  have h6 : n < 10 ^ 6 := by norm_num; omega
  have hlen := toDigitsCore_length_le (n + 1) n 6 [] h6 (by norm_num)
  have hrepr : (Nat.repr n).length = (Nat.toDigits 10 n).length := rfl
  rw [hrepr, Nat.toDigits]
  simpa using hlen

/-- `padStart` always reaches the requested length. -/
theorem length_asString (l : List Char) : (List.asString l).length = l.length := rfl

theorem length_toList (s : String) : s.toList.length = s.length := rfl

theorem padStart_length (s : String) (n : Nat) (c : Char) :
    (padStart s n c).length = max n s.length := by
  rw [padStart, length_asString, List.length_append, List.length_replicate, length_toList]
  omega

/-! ## C1: `generateCodeForCounter` equals the spec's RFC 6238/4226
`codeForCounter` -/

/-- The truncation bridge: on an HMAC output the JavaScript shift/mask
combination equals the spec's "4 bytes big-endian, masked to 31 bits". -/
theorem hotpTruncate_eq_spec (key m : List Nat) :
    hotpTruncate (hmacSha1 key m) = hotpSpecValue (hmacSha1 key m) := by
  have hb : ∀ i, (hmacSha1 key m).getD i 0 < 256 := fun i => hmac_getD_lt key m i
  simp only [hotpTruncate, hotpSpecValue, and15_eq, and127_eq, and255_eq, Nat.shiftLeft_eq]
  set hash := hmacSha1 key m with hh
  set off := hash.getD (hash.length - 1) 0 % 16 with hoff
  have ha := hb off
  have hb1 := hb (off + 1)
  have hb2 := hb (off + 2)
  have hb3 := hb (off + 3)
  set a := hash.getD off 0
  set b := hash.getD (off + 1) 0
  set c := hash.getD (off + 2) 0
  set d := hash.getD (off + 3) 0
  rw [or_eq_add_pow 24 (a % 128) (b % 256 * 2 ^ 16) (by norm_num; omega)]
  have hX : a % 128 * 2 ^ 24 + b % 256 * 2 ^ 16 = (a % 128 * 2 ^ 8 + b % 256) * 2 ^ 16 := by
    ring
  rw [hX, or_eq_add_pow 16 (a % 128 * 2 ^ 8 + b % 256) (c % 256 * 2 ^ 8) (by norm_num; omega)]
  have hY : (a % 128 * 2 ^ 8 + b % 256) * 2 ^ 16 + c % 256 * 2 ^ 8 =
      ((a % 128 * 2 ^ 8 + b % 256) * 2 ^ 8 + c % 256) * 2 ^ 8 := by
    ring
  rw [hY, or_eq_add_pow 8 ((a % 128 * 2 ^ 8 + b % 256) * 2 ^ 8 + c % 256) (d % 256)
    (by norm_num; omega)]
  norm_num
  omega

/-- C1.  For every valid secret and every counter accepted by the 64-bit
big-endian write, `generateCodeForCounter(secret, counter)` returns exactly
the RFC 6238/4226 value as the spec describes it: Base32-decode the secret,
HMAC-SHA1 the 8-byte big-endian counter, take the low 4 bits of the last hash
byte as offset, read 4 bytes there masked to 31 bits big-endian, and render
that value mod 10^6 as a 6-character decimal string with leading zeros
(a truncated value of 42 renders as "000042"). -/
theorem c1_generateCodeForCounter_rfc (secret : String) (counter : Int)
    (h0 : 0 ≤ counter) (h1 : counter < 18446744073709551616) :
    generateCodeForCounter secret counter = some (codeForCounterSpec secret counter.toNat) ∧
    (codeForCounterSpec secret counter.toNat).length = 6 ∧
    (hotpSpecValue (hmacSha1 (base32Decode secret) (u64be counter.toNat)) % 1000000 = 42 →
      codeForCounterSpec secret counter.toNat = "000042") := by
  refine ⟨?_, ?_, ?_⟩
  · rw [generateCodeForCounter, if_pos ⟨h0, h1⟩]
    simp only [hotp, codeForCounterSpec]
    rw [hotpTruncate_eq_spec]
  · simp only [codeForCounterSpec, padStart_length]
    have hlt : hotpSpecValue (hmacSha1 (base32Decode secret) (u64be counter.toNat)) % 1000000 <
        1000000 := Nat.mod_lt _ (by norm_num)
    have := repr_length_le_six _ hlt
    omega
  · intro h42
    simp only [codeForCounterSpec]
    rw [h42]
    rfl

/-- Witness for C1 at the RFC 4226 test secret and counter 0. -/
theorem c1_witness :
    generateCodeForCounter "GEZDGNBVGY3TQOJQGEZDGNBVGY3TQOJQ" 0 =
      some (codeForCounterSpec "GEZDGNBVGY3TQOJQGEZDGNBVGY3TQOJQ" (Int.toNat 0)) ∧
    (codeForCounterSpec "GEZDGNBVGY3TQOJQGEZDGNBVGY3TQOJQ" (Int.toNat 0)).length = 6 ∧
    (hotpSpecValue (hmacSha1 (base32Decode "GEZDGNBVGY3TQOJQGEZDGNBVGY3TQOJQ")
        (u64be (Int.toNat 0))) % 1000000 = 42 →
      codeForCounterSpec "GEZDGNBVGY3TQOJQGEZDGNBVGY3TQOJQ" (Int.toNat 0) = "000042") :=
  c1_generateCodeForCounter_rfc "GEZDGNBVGY3TQOJQGEZDGNBVGY3TQOJQ" 0 (by decide) (by decide)

/-- Sanity anchor: the embedded engine reproduces the first RFC 4226
Appendix D HOTP value for the standard 20-byte test key. -/
theorem hotp_rfc4226_vector : hotp "GEZDGNBVGY3TQOJQGEZDGNBVGY3TQOJQ" 0 = "755224" := by rfl

/-! ## C4: rate limiter window behaviour -/

theorem rl_allowed_step (c r t w m : Nat) (ht : t ≤ r) (hc : c < m) :
    checkRateLimit (some ⟨c, r⟩) t w m = ⟨true, none, some ⟨c + 1, r⟩⟩ := by
  simp [checkRateLimit, show ¬ (r < t) by omega, show ¬ (m ≤ c) by omega]

theorem rl_run_within (w m : Nat) : ∀ (ts : List Nat) (c r : Nat),
    (∀ t ∈ ts, t ≤ r) → c + ts.length ≤ m →
    rlRun w m ts (some ⟨c, r⟩) = (List.replicate ts.length true, some ⟨c + ts.length, r⟩) := by
  intro ts
  induction ts with
  | nil => intro c r _ _; rfl
  | cons t ts ih =>
      intro c r hts hc
      have hstep := rl_allowed_step c r t w m (hts t (by simp)) (by simp at hc; omega)
      rw [rlRun, hstep]
      have := ih (c + 1) r (fun u hu => hts u (by simp [hu])) (by simp at hc ⊢; omega)
      rw [this]
      simp [List.replicate_succ]
      omega

/-- C4 (amended).  From an empty store, a first request at `t0` and any
`maxRequests - 1` further requests at times not past the reset timestamp
`t0 + windowMs` are all allowed, leaving `count = maxRequests`; one more
request at a time not past the reset timestamp is rejected with
`retryAfterSeconds = ceil((resetTime - now)/1000)`, which is strictly
positive whenever that request arrives strictly before the reset timestamp
(at exactly the reset timestamp the call is rejected with
`retryAfterSeconds = 0`); and once `now` passes the reset timestamp, the
counter resets to `count = 1` with reset timestamp `now + windowMs` and the
request is allowed. -/
theorem c4_rate_limiter (w m t0 : Nat) (ts : List Nat) (textra : Nat)
    (hm : 1 ≤ m) (hlen : ts.length = m - 1) (hts : ∀ t ∈ ts, t ≤ t0 + w)
    (hextra : textra ≤ t0 + w) :
    rlRun w m (t0 :: ts) none = (List.replicate m true, some ⟨m, t0 + w⟩) ∧
    checkRateLimit (some ⟨m, t0 + w⟩) textra w m =
      ⟨false, some ((t0 + w - textra + 999) / 1000), some ⟨m, t0 + w⟩⟩ ∧
    (textra < t0 + w → 0 < (t0 + w - textra + 999) / 1000) ∧
    (∀ (entry : RLEntry) (t' : Nat), entry.resetTime < t' →
      checkRateLimit (some entry) t' w m = ⟨true, none, some ⟨1, t' + w⟩⟩) := by
  refine ⟨?_, ?_, ?_, ?_⟩
  · have h1 : checkRateLimit none t0 w m = ⟨true, none, some ⟨1, t0 + w⟩⟩ := rfl
    rw [rlRun, h1]
    have := rl_run_within w m ts 1 (t0 + w) hts (by omega)
    rw [this]
    have hrep : List.replicate m true = true :: List.replicate (m - 1) true := by
      cases m with
      | zero => omega
      | succ k => simp [List.replicate_succ]
    rw [hrep, hlen]
    simp
    omega
  · simp [checkRateLimit, show ¬ (t0 + w < textra) by omega, show m ≤ m by omega]
  · intro h; omega
  · intro entry t' h
    simp [checkRateLimit, h]

/-- C4 witness: window 60000 ms, limit 2, calls at 0 and 5, extra call at
10. -/
theorem c4_witness :
    rlRun 60000 2 [0, 5] none = (List.replicate 2 true, some ⟨2, 0 + 60000⟩) ∧
    checkRateLimit (some ⟨2, 0 + 60000⟩) 10 60000 2 =
      ⟨false, some ((0 + 60000 - 10 + 999) / 1000), some ⟨2, 0 + 60000⟩⟩ ∧
    (10 < 0 + 60000 → 0 < (0 + 60000 - 10 + 999) / 1000) ∧
    (∀ (entry : RLEntry) (t' : Nat), entry.resetTime < t' →
      checkRateLimit (some entry) t' 60000 2 = ⟨true, none, some ⟨1, t' + 60000⟩⟩) :=
  c4_rate_limiter 60000 2 0 [5] 10 (by decide) (by decide) (by decide) (by decide)

/-- C4 counterexample to the claim as stated: with window 60000 ms and
`maxRequests = 1`, the single allowed request at time 0 fills the window;
the second request at time 60000 — still within the window by the code's own
test, which only resets once `now > resetTime` — is rejected with
`retryAfterSeconds = 0`, not a strictly positive value. -/
theorem c4_counterexample :
    rlRun 60000 1 [0] none = ([true], some ⟨1, 60000⟩) ∧
    checkRateLimit (some ⟨1, 60000⟩) 60000 60000 1 = ⟨false, some 0, some ⟨1, 60000⟩⟩ := by
  decide

/-! ## C6 and C7: account lockout tracker -/

/-- C6.  `recordFailedAttempt` increments the counter by one, sets
`lockedUntil = now + 15min` exactly when the new count reaches the threshold
of 5 (and `null` below it), and always stamps `lastAttemptAt` and the
origin IP; `checkLockout` on a record with `lockedUntil = T` returns locked
with remaining time `T - now` while `T` is in the future, and deletes the
record and returns not-locked once it is not. -/
theorem c6_lockout_tracker :
    (∀ (rec : Option LockoutRec) (now : Nat) (ip : String),
      recordFailedAttempt rec now ip =
        { failedAttempts := (match rec with | some r => r.failedAttempts | none => 0) + 1
          lockedUntil :=
            if 5 ≤ (match rec with | some r => r.failedAttempts | none => 0) + 1 then
              some (now + 900000)
            else none
          lastAttempt := now
          ipAddress := ip }) ∧
    (∀ (r : LockoutRec) (now T : Nat), r.lockedUntil = some T →
      (now < T → checkAccountLockout (some r) now = (⟨true, T - now, r.failedAttempts⟩, some r)) ∧
      (T ≤ now → checkAccountLockout (some r) now = (⟨false, 0, 0⟩, none))) := by
  refine ⟨fun rec now ip => rfl, fun r now T hT => ⟨fun h => ?_, fun h => ?_⟩⟩
  · simp [checkAccountLockout, jsDateMs, hT, h]
  · simp [checkAccountLockout, jsDateMs, hT, show ¬ (now < T) by omega]

/-- C6 witness: a locked record checked before and after expiry. -/
theorem c6_witness :
    (1000 < 5000 →
      checkAccountLockout (some ⟨5, some 5000, 900, "192.0.2.1"⟩) 1000 =
        (⟨true, 5000 - 1000, 5⟩, some ⟨5, some 5000, 900, "192.0.2.1"⟩)) ∧
    (5000 ≤ 7000 →
      checkAccountLockout (some ⟨5, some 5000, 900, "192.0.2.1"⟩) 7000 =
        (⟨false, 0, 0⟩, none)) :=
  ⟨fun h => ((c6_lockout_tracker.2 ⟨5, some 5000, 900, "192.0.2.1"⟩ 1000 5000 rfl).1 h),
   fun h => ((c6_lockout_tracker.2 ⟨5, some 5000, 900, "192.0.2.1"⟩ 7000 5000 rfl).2 h)⟩

/-- C7 (code bug).  `checkAccountLockout` on a record with 3 recorded failed
attempts and `locked_until = NULL` coerces the null expiry to the epoch
(`new Date(null).getTime() = 0`), treats the non-existent lockout as
expired, and deletes the record — the failure counter is lost rather than
left unchanged. -/
theorem c7_checkLockout_deletes_unlocked_record :
    checkAccountLockout (some ⟨3, none, 1000, "198.51.100.7"⟩) 1700000000000 =
      (⟨false, 0, 0⟩, none) := rfl

/-! ## C8: backup-code consumption -/

/-- C8 counterexample to the claim as stated: over arbitrary stored-code
lists, a submission containing whitespace matches after normalization, but
the caller's removal filter compares against the *uppercased, un-stripped*
submission and removes nothing, so the same submission succeeds again. -/
theorem c8_counterexample :
    verifyBackupCode "ABCD 1234" ["ABCD1234"] = true ∧
    removeBackupCode "ABCD 1234" ["ABCD1234"] = ["ABCD1234"] ∧
    verifyBackupCode "ABCD 1234" (removeBackupCode "ABCD 1234" ["ABCD1234"]) = true := by
  decide

/-- C8 (amended).  `verifyBackupCode` matches the uppercased,
whitespace-stripped submission against the stored list; and whenever the
submission contains no whitespace (so that its normalized and uppercased
forms agree — guaranteed by the route's exact-8-character guard together
with 8-character stored codes), verify-then-remove is single-use: after the
caller filters out entries equal to the uppercased submission, a second
submission of the same code fails. -/
theorem c8_backup_code_single_use (provided : String) (stored : List String)
    (hnorm : normalizeBackupCode provided = upperCode provided) :
    (verifyBackupCode provided stored = true ↔ normalizeBackupCode provided ∈ stored) ∧
    (verifyBackupCode provided stored = true →
      verifyBackupCode provided (removeBackupCode provided stored) = false) := by
  constructor
  · simp [verifyBackupCode]
  · intro _
    have hnot : normalizeBackupCode provided ∉ removeBackupCode provided stored := by
      rw [removeBackupCode]
      intro hmem
      rw [List.mem_filter] at hmem
      rcases hmem with ⟨-, hne⟩
      rw [hnorm] at hne
      simp at hne
    simpa [verifyBackupCode] using hnot

/-- C8 witness at a whitespace-free lowercase submission. -/
theorem c8_witness :
    (verifyBackupCode "abcd1234" ["ABCD1234"] = true ↔
      normalizeBackupCode "abcd1234" ∈ ["ABCD1234"]) ∧
    (verifyBackupCode "abcd1234" ["ABCD1234"] = true →
      verifyBackupCode "abcd1234" (removeBackupCode "abcd1234" ["ABCD1234"]) = false) :=
  c8_backup_code_single_use "abcd1234" ["ABCD1234"] (by decide)

/-! ## C9: the gates' two-factor steps -/

/-- C9 counterexample to the claim as stated: on a route whose config demands
2FA, an authenticated account *with* an enabled TOTP credential passes the
advanced gate's two-factor step with no "2FA satisfied" marker and no
submitted code — the step returns pass-through, not a 403 denial.  (The page
middleware does consult the marker cookie, but denies by redirect, not
403.) -/
theorem c9_counterexample :
    gateTwoFactorStep true true false false = none ∧
    middlewareTwoFactorStep true false = some "/two-factor-auth" := by
  decide

/-- C9 (amended).  The advanced gate's two-factor step ignores any session
marker and any submitted code entirely; it denies with 403 exactly when the
config demands 2FA and the account's TOTP credential is *not* enabled
(enrollment enforcement only).  Per-session marker enforcement lives only in
the page middleware, which redirects to `/two-factor-auth` exactly when the
credential is enabled and the `two_factor_ok` cookie marker is absent. -/
theorem c9_two_factor_enforcement :
    (∀ r e marker marker' code code' : Bool,
      gateTwoFactorStep r e marker code = gateTwoFactorStep r e marker' code') ∧
    (∀ r e marker code : Bool,
      gateTwoFactorStep r e marker code = some 403 ↔ r = true ∧ e = false) ∧
    (∀ e c : Bool,
      middlewareTwoFactorStep e c = some "/two-factor-auth" ↔ e = true ∧ c = false) := by
  refine ⟨?_, ?_, ?_⟩
  · intro r e m m' j j'; cases r <;> cases e <;> rfl
  · intro r e m j; cases r <;> cases e <;> simp [gateTwoFactorStep]
  · intro e c; cases e <;> cases c <;> simp [middlewareTwoFactorStep]

/-! ## C10: `generateCode` time handling -/

/-- C10 (amended).  `generateCode`'s time parameter is in milliseconds: for
every nonzero time the counter is `floor(time/1000/30)`; passing `time = 0`
does not compute the epoch code but silently falls back to the clock
(`time || Date.now()` treats 0 as falsy), whose counter is nonzero once the
clock is at least one 30-second period past the epoch. -/
theorem c10_generateCode_time_semantics :
    (∀ (s : String) (t nowMs : Nat), t ≠ 0 →
      generateCode s t nowMs = generateCodeForCounter s ((t / 1000 / 30 : Nat))) ∧
    (∀ (s : String) (nowMs : Nat),
      generateCode s 0 nowMs = generateCodeForCounter s ((nowMs / 1000 / 30 : Nat))) ∧
    (∀ (nowMs : Nat), 30000 ≤ nowMs → (nowMs / 1000 / 30 : Nat) ≠ 0) := by
  refine ⟨?_, ?_, ?_⟩
  · intro s t nowMs ht
    simp [generateCode, ht]
  · intro s nowMs
    simp [generateCode]
  · intro nowMs h
    omega

/-- C10 witness at `time = 30000` and a fallback at `time = 0`. -/
theorem c10_witness :
    generateCode "GEZDGNBVGY3TQOJQGEZDGNBVGY3TQOJQ" 30000 1700000000000 =
      generateCodeForCounter "GEZDGNBVGY3TQOJQGEZDGNBVGY3TQOJQ" ((30000 / 1000 / 30 : Nat)) ∧
    generateCode "GEZDGNBVGY3TQOJQGEZDGNBVGY3TQOJQ" 0 1700000000000 =
      generateCodeForCounter "GEZDGNBVGY3TQOJQGEZDGNBVGY3TQOJQ"
        ((1700000000000 / 1000 / 30 : Nat)) :=
  ⟨c10_generateCode_time_semantics.1 _ 30000 1700000000000 (by decide),
   c10_generateCode_time_semantics.2.1 _ 1700000000000⟩

/-- C10 counterexample to the "epoch code unreachable" clause: any nonzero
time below 30000 ms maps to counter 0, so `generateCode(secret, 1)` returns
exactly the Unix-epoch period's code. -/
theorem c10_counterexample :
    generateCode "GEZDGNBVGY3TQOJQGEZDGNBVGY3TQOJQ" 1 1700000000000 =
      generateCodeForCounter "GEZDGNBVGY3TQOJQGEZDGNBVGY3TQOJQ" 0 ∧ (1 : Nat) ≠ 0 :=
  ⟨rfl, by decide⟩

/-! ## C3: verification window -/

/-- The verifier's loop accepts exactly when some counter in the candidate
list yields the submitted code, provided every candidate is inside the
64-bit range accepted by the counter write. -/
theorem verifyLoop_eq_true_iff (secret code : String) :
    ∀ l : List Int, (∀ i ∈ l, 0 ≤ i ∧ i < 18446744073709551616) →
      (verifyLoop secret code l = some true ↔ ∃ i ∈ l, hotp secret i.toNat = code) := by
  intro l
  induction l with
  | nil => intro _; simp [verifyLoop]
  | cons i rest ih =>
      intro hr
      have hi := hr i (by simp)
      rw [verifyLoop, generateCodeForCounter, if_pos hi]
      by_cases hc : hotp secret i.toNat = code
      · simp [Option.bind, hc]
      · rw [Option.some_bind, if_neg hc, ih (fun j hj => hr j (by simp [hj]))]
        simp [hc]

/-- The tolerance-1 window, evaluated. -/
theorem windowCounters_one (cv : Nat) :
    windowCounters cv 1 = [(cv : Int) - 1, (cv : Int), (cv : Int) + 1] := by
  norm_num [windowCounters, List.range_succ]
  ring_nf

/-- C3 (amended).  `verifyCode` checks exactly the counters
`now - tolerance .. now + tolerance` by exact string equality;
`verifyCode(secret, generateCode(secret, t), 1)` at any verification time
within ±29 s of `t` is true provided both times are at least one 30-second
period past the epoch (earlier, the window's counter `now - 1` underflows
the unsigned 64-bit counter write and the verifier throws instead); and a
verification time 61 s or more away from `t` places `t`'s counter outside
the checked window, so acceptance there requires a different counter to
collide on the same 6-digit code. -/
theorem c3_verify_window :
    (∀ (secret code : String) (tol now : Nat),
      (∀ i ∈ windowCounters (now / 1000 / 30) tol, 0 ≤ i ∧ i < 18446744073709551616) →
      (verifyCode secret code tol now = some true ↔
        ∃ i ∈ windowCounters (now / 1000 / 30) tol, hotp secret i.toNat = code)) ∧
    (∀ (secret : String) (t v : Nat),
      30000 ≤ t → 30000 ≤ v → t ≤ v + 29000 → v ≤ t + 29000 →
      v / 1000 / 30 + 1 < 18446744073709551616 →
      verifyCode secret (hotp secret (t / 1000 / 30)) 1 v = some true) ∧
    (∀ t v : Nat, t + 61000 ≤ v ∨ v + 61000 ≤ t →
      ((t / 1000 / 30 : Nat) : Int) ∉ windowCounters (v / 1000 / 30) 1) := by
  refine ⟨?_, ?_, ?_⟩
  · intro secret code tol now hr
    exact verifyLoop_eq_true_iff secret code _ hr
  · intro secret t v ht hv h1 h2 hcap
    have hrange : ∀ i ∈ windowCounters (v / 1000 / 30) 1, 0 ≤ i ∧ i < 18446744073709551616 := by
      intro i hi
      simp [windowCounters] at hi
      rcases hi with ⟨k, hk, rfl⟩
      constructor <;> [skip; skip] <;> omega
    rw [verifyCode, verifyLoop_eq_true_iff secret _ _ hrange]
    refine ⟨((t / 1000 / 30 : Nat) : Int), ?_, by rw [Int.toNat_natCast]⟩
    have hcc : t / 1000 / 30 + 1 = v / 1000 / 30 ∨ t / 1000 / 30 = v / 1000 / 30 ∨
        t / 1000 / 30 = v / 1000 / 30 + 1 := by omega
    rw [windowCounters_one]
    simp only [List.mem_cons, List.not_mem_nil, or_false]
    rcases hcc with h | h | h
    · left; omega
    · right; left; omega
    · right; right; omega
  · intro t v hfar
    have hd : v / 1000 / 30 ≥ t / 1000 / 30 + 2 ∨ t / 1000 / 30 ≥ v / 1000 / 30 + 2 := by
      rcases hfar with h | h
      · left; omega
      · right; omega
    rw [windowCounters_one]
    simp only [List.mem_cons, List.not_mem_nil, or_false, not_or]
    refine ⟨by omega, by omega, by omega⟩

/-- C3 witness for the positive window parts. -/
theorem c3_witness :
    (verifyCode "GEZDGNBVGY3TQOJQGEZDGNBVGY3TQOJQ" "755224" 1 45000 = some true ↔
      ∃ i ∈ windowCounters (45000 / 1000 / 30) 1,
        hotp "GEZDGNBVGY3TQOJQGEZDGNBVGY3TQOJQ" i.toNat = "755224") ∧
    verifyCode "GEZDGNBVGY3TQOJQGEZDGNBVGY3TQOJQ"
      (hotp "GEZDGNBVGY3TQOJQGEZDGNBVGY3TQOJQ" (60000 / 1000 / 30)) 1 89000 = some true :=
  ⟨c3_verify_window.1 "GEZDGNBVGY3TQOJQGEZDGNBVGY3TQOJQ" "755224" 1 45000 (by decide),
   c3_verify_window.2.1 "GEZDGNBVGY3TQOJQGEZDGNBVGY3TQOJQ" 60000 89000 (by decide) (by decide)
     (by decide) (by decide) (by decide)⟩

/-- C3 counterexample to the claim as stated.  First, at `t = 0` the window
contains counter −1, the 64-bit counter write throws, and verification does
not return true.  Second, codes collide across counters: for the RFC test
secret, counters 103424 and 103427 both yield "746629", so the code
generated at `t = 3102720000` still verifies at `t + 61000` — outside the
±1-step window — where the claim says verification is false. -/
theorem c3_counterexample :
    verifyCode "GEZDGNBVGY3TQOJQGEZDGNBVGY3TQOJQ"
      (hotp "GEZDGNBVGY3TQOJQGEZDGNBVGY3TQOJQ" 0) 1 0 = none ∧
    generateCode "GEZDGNBVGY3TQOJQGEZDGNBVGY3TQOJQ" 3102720000 3102720000 =
      some (hotp "GEZDGNBVGY3TQOJQGEZDGNBVGY3TQOJQ" 103424) ∧
    verifyCode "GEZDGNBVGY3TQOJQGEZDGNBVGY3TQOJQ"
      (hotp "GEZDGNBVGY3TQOJQGEZDGNBVGY3TQOJQ" 103424) 1 (3102720000 + 61000) = some true := by
  refine ⟨by rfl, by rfl, by rfl⟩

/-! ## C5: session concurrency cap -/

instance : IsTotal Session byActivityDesc :=
  ⟨fun a b => (Nat.le_total b.lastActivity a.lastActivity).imp id id⟩

instance : IsTrans Session byActivityDesc :=
  ⟨fun _ _ _ hab hbc => Nat.le_trans hbc hab⟩

/-- Images under `g` of a take-element and a drop-element differ when the
mapped list has no duplicates. -/
theorem map_take_drop_ne {α β : Type} (g : α → β) (l : List α) (k : Nat)
    (h : (l.map g).Nodup) {x y : α} (hx : x ∈ l.take k) (hy : y ∈ l.drop k) :
    g x ≠ g y := by
  have hsplit : l.map g = (l.take k).map g ++ (l.drop k).map g := by
    rw [← List.map_append, List.take_append_drop]
  rw [hsplit] at h
  have hd := (List.nodup_append.mp h).2.2
  intro he
  exact hd (List.mem_map_of_mem g hx) (he ▸ List.mem_map_of_mem g hy)

/-- After `terminateOldestSessions keep`, exactly `keep` sessions remain
active, provided session ids are unique and more than `keep` were active. -/
theorem terminate_count (sessions : List Session) (keep : Nat)
    (hid : (sessions.map (fun s => s.id)).Nodup)
    (hlt : keep < (sessions.filter (fun s => s.isActive)).length) :
    getActiveSessionCount (terminateOldestSessions keep sessions) = keep := by
  have hperm : List.Perm
      (List.insertionSort byActivityDesc (sessions.filter (fun s => s.isActive)))
      (sessions.filter (fun s => s.isActive)) := List.perm_insertionSort _ _
  set A := sessions.filter (fun s => s.isActive) with hA
  set S := List.insertionSort byActivityDesc A with hS
  have hlenS : S.length = A.length := hperm.length_eq
  have hmapnodupA : (A.map (fun s => s.id)).Nodup :=
    ((List.filter_sublist sessions).map (fun s => s.id)).nodup hid
  have hmapnodupS : (S.map (fun s => s.id)).Nodup := (hperm.map _).symm.nodup hmapnodupA
  rw [terminateOldestSessions]
  simp only [← hA, ← hS]
  rw [if_pos (by omega)]
  set ids := (S.drop keep).map (fun s => s.id) with hids
  rw [getActiveSessionCount, List.filter_map, List.length_map, ← List.countP_eq_length_filter]
  have hcnt : List.countP ((fun s : Session => s.isActive) ∘ (fun s : Session =>
      if ids.contains s.id then { s with isActive := false } else s)) sessions =
      List.countP (fun s : Session => !ids.contains s.id && s.isActive) sessions := by
    apply List.countP_congr
    intro s _
    by_cases hc : ids.contains s.id = true
    · rw [Function.comp_apply, if_pos hc]
      simp at hc
      simp [hc]
    · rw [Function.comp_apply, if_neg hc]
      simp at hc
      simp [hc]
  rw [hcnt]
  have hcf : List.countP (fun s : Session => !ids.contains s.id && s.isActive) sessions =
      List.countP (fun s : Session => !ids.contains s.id) A := by
    rw [hA, List.countP_filter]
  rw [hcf, ← hperm.countP_eq]
  have hsplit : S = S.take keep ++ S.drop keep := (List.take_append_drop keep S).symm
  rw [hsplit, List.countP_append]
  have hdropzero : List.countP (fun s : Session => !ids.contains s.id) (S.drop keep) = 0 := by
    rw [List.countP_eq_zero]
    intro u hu
    simp only [Bool.not_eq_true', Bool.not_eq_false]
    rw [hids]
    exact List.contains_iff_exists_mem_beq.mpr ⟨u.id, List.mem_map_of_mem _ hu, by simp⟩
  have htakefull : List.countP (fun s : Session => !ids.contains s.id) (S.take keep) =
      (S.take keep).length := by
    rw [List.countP_eq_length]
    intro u hu
    simp only [Bool.not_eq_true']
    rw [hids]
    by_contra hcon
    simp only [Bool.not_eq_false, List.contains_iff_exists_mem_beq] at hcon
    rcases hcon with ⟨b, hb, hbeq⟩
    rcases List.mem_map.mp hb with ⟨w, hw, rfl⟩
    exact map_take_drop_ne (fun s => s.id) S keep hmapnodupS hu hw (by simpa using hbeq)
  rw [hdropzero, htakefull, List.length_take]
  omega

/-- C5.  `checkAuth`'s session step caps the active-session count at
`maxConcurrentSessions = 5`: when session ids are unique, the step leaves
`min(activeCount, 5)` sessions active; in particular a 6th concurrent
session triggers termination down to exactly 5 active, and (for distinct
activity timestamps) the deactivated session is precisely the
least-recently-active one. -/
theorem c5_session_cap :
    (∀ sessions : List Session, (sessions.map (fun s => s.id)).Nodup →
      getActiveSessionCount (enforceSessionCap sessions) =
        min (getActiveSessionCount sessions) maxConcurrentSessions) ∧
    (∀ (sessions : List Session) (s0 : Session),
      (sessions.map (fun s => s.id)).Nodup →
      ((sessions.filter (fun s => s.isActive)).map (fun s => s.lastActivity)).Nodup →
      getActiveSessionCount sessions = 6 →
      s0 ∈ sessions → s0.isActive = true →
      (∀ s' ∈ sessions, s'.isActive = true → s0.lastActivity ≤ s'.lastActivity) →
      getActiveSessionCount (enforceSessionCap sessions) = 5 ∧
      (∀ u ∈ enforceSessionCap sessions, u.id = s0.id → u.isActive = false)) := by
  constructor
  · intro sessions hid
    rw [enforceSessionCap]
    by_cases hgt : maxConcurrentSessions < getActiveSessionCount sessions
    · rw [if_pos hgt, terminate_count sessions maxConcurrentSessions hid hgt]
      omega
    · rw [if_neg hgt]
      omega
  · intro sessions s0 hid hact hcount hs0mem hs0act hs0min
    have hgt : maxConcurrentSessions < getActiveSessionCount sessions := by
      rw [hcount]; norm_num [maxConcurrentSessions]
    have hcount5 : getActiveSessionCount (enforceSessionCap sessions) = 5 := by
      rw [enforceSessionCap, if_pos hgt]
      exact terminate_count sessions maxConcurrentSessions hid hgt
    refine ⟨hcount5, ?_⟩
    have hperm : List.Perm
        (List.insertionSort byActivityDesc (sessions.filter (fun s => s.isActive)))
        (sessions.filter (fun s => s.isActive)) := List.perm_insertionSort _ _
    set A := sessions.filter (fun s => s.isActive) with hA
    set S := List.insertionSort byActivityDesc A with hS
    have hlenA : A.length = 6 := hcount
    have hlenS : S.length = 6 := by rw [hperm.length_eq, hlenA]
    have hsorted : List.Sorted byActivityDesc S := List.sorted_insertionSort _ _
    have hactS : (S.map (fun s => s.lastActivity)).Nodup := (hperm.map _).symm.nodup hact
    -- the least-recently-active session sits in the dropped tail of the sort
    have hs0S : s0 ∈ S := hperm.symm.subset (List.mem_filter.mpr ⟨hs0mem, by simp [hs0act]⟩)
    have hs0drop : s0 ∈ S.drop maxConcurrentSessions := by
      by_contra hnot
      have hs0take : s0 ∈ S.take maxConcurrentSessions := by
        rcases (List.mem_append.mp (by rw [List.take_append_drop]; exact hs0S :
            s0 ∈ S.take maxConcurrentSessions ++ S.drop maxConcurrentSessions)) with h | h
        · exact h
        · exact absurd h hnot
      have hdroplen : (S.drop maxConcurrentSessions).length = 1 := by
        rw [List.length_drop, hlenS]
        rfl
      obtain ⟨w, hw⟩ : ∃ w, S.drop maxConcurrentSessions = [w] := by
        cases hd : S.drop maxConcurrentSessions with
        | nil => rw [hd] at hdroplen; simp at hdroplen
        | cons w t =>
            rw [hd] at hdroplen
            simp at hdroplen
            exact ⟨w, by rw [hdroplen]⟩
      have hwS : w ∈ S := by
        have : w ∈ S.drop maxConcurrentSessions := by rw [hw]; simp
        exact List.drop_subset _ _ this
      have hwA : w ∈ A := hperm.subset hwS
      have hwmem : w ∈ sessions := (List.mem_filter.mp hwA).1
      have hwact : w.isActive = true := by
        have := (List.mem_filter.mp hwA).2
        simpa using this
      have hle1 : s0.lastActivity ≤ w.lastActivity := hs0min w hwmem hwact
      have hle2 : w.lastActivity ≤ s0.lastActivity := by
        have hsorted' : List.Pairwise byActivityDesc
            (S.take maxConcurrentSessions ++ S.drop maxConcurrentSessions) := by
          rw [List.take_append_drop]
          exact hsorted
        have hpair := List.pairwise_append.mp hsorted'
        exact hpair.2.2 s0 hs0take w (by rw [hw]; simp)
      have : s0.lastActivity = w.lastActivity := Nat.le_antisymm hle1 hle2
      exact map_take_drop_ne (fun s => s.lastActivity) S maxConcurrentSessions hactS
        hs0take (by rw [hw]; simp) this
    -- now every surviving copy of s0's id is deactivated
    intro u hu huid
    rw [enforceSessionCap, if_pos hgt, terminateOldestSessions] at hu
    simp only [← hA, ← hS] at hu
    rw [if_pos (by omega)] at hu
    rcases List.mem_map.mp hu with ⟨w, hwmem, rfl⟩
    by_cases hc : ((S.drop maxConcurrentSessions).map (fun s => s.id)).contains w.id = true
    · rw [if_pos hc]
    · exfalso
      rw [if_neg hc] at huid
      have hws0 : w = s0 := List.inj_on_of_nodup_map hid hwmem hs0mem huid
      apply hc
      rw [hws0]
      exact List.contains_iff_exists_mem_beq.mpr
        ⟨s0.id, List.mem_map_of_mem _ hs0drop, by simp⟩


/-! ## C2: Base32 round-trip and decoder permissiveness

The proofs work at the level of 5-bit symbol lists; `b32DecSymsT` is the
decoder's character loop restricted to valid symbols, made to return its
accumulator state so that runs compose. -/

/-- The decoder loop on symbol indices, returning output bytes and the final
accumulator state. -/
def b32DecSymsT : List Nat → Nat → Nat → List Nat × Nat × Nat
  | [], value, bits => ([], value, bits)
  | s :: ss, value, bits =>
      let v := ((value <<< 5) ||| s) % M32
      let bits' := bits + 5
      if 8 ≤ bits' then
        let r := b32DecSymsT ss v (bits' - 8)
        (((v >>> (bits' - 8)) &&& 255) :: r.1, r.2.1, r.2.2)
      else b32DecSymsT ss v bits'

/-- The character loop equals the symbol loop on the extracted alphabet
indices (non-alphabet characters are skipped). -/
theorem b32DecLoop_eq_syms : ∀ (cs : List Char) (v k : Nat),
    b32DecLoop cs v k = (b32DecSymsT (cs.filterMap alphaIdx) v k).1 := by
  intro cs
  induction cs with
  | nil => intro v k; rfl
  | cons c cs ih =>
      intro v k
      cases h : alphaIdx c with
      | none => simp only [b32DecLoop, h, List.filterMap_cons, ih]
      | some idx =>
          simp only [b32DecLoop, h, List.filterMap_cons, b32DecSymsT]
          by_cases hb : 8 ≤ k + 5
          · simp [hb, ih]
          · simp [hb, ih]

/-- Decoder runs compose over list append. -/
theorem b32DecSymsT_append : ∀ (xs ys : List Nat) (v k : Nat),
    b32DecSymsT (xs ++ ys) v k =
      ((b32DecSymsT xs v k).1 ++
        (b32DecSymsT ys (b32DecSymsT xs v k).2.1 (b32DecSymsT xs v k).2.2).1,
       (b32DecSymsT ys (b32DecSymsT xs v k).2.1 (b32DecSymsT xs v k).2.2).2.1,
       (b32DecSymsT ys (b32DecSymsT xs v k).2.1 (b32DecSymsT xs v k).2.2).2.2) := by
  intro xs
  induction xs with
  | nil => intro ys v k; rfl
  | cons s ss ih =>
      intro ys v k
      rw [List.cons_append]
      simp only [b32DecSymsT]
      by_cases hb : 8 ≤ k + 5
      · simp [hb, ih]
      · simp [hb, ih]

/-- Encoder runs compose over list append. -/
theorem b32EncLoop_append : ∀ (xs ys : List Nat) (v k : Nat),
    b32EncLoop (xs ++ ys) v k =
      ((b32EncLoop xs v k).1 ++
        (b32EncLoop ys (b32EncLoop xs v k).2.1 (b32EncLoop xs v k).2.2).1,
       (b32EncLoop ys (b32EncLoop xs v k).2.1 (b32EncLoop xs v k).2.2).2.1,
       (b32EncLoop ys (b32EncLoop xs v k).2.1 (b32EncLoop xs v k).2.2).2.2) := by
  intro xs
  induction xs with
  | nil => intro ys v k; rfl
  | cons b bs ih =>
      intro ys v k
      rw [List.cons_append, b32EncLoop, b32EncLoop]
      simp only [ih, List.append_assoc]

/-- `base32EncodeSyms` generalized over the starting accumulator. -/
def encSymsFrom (bs : List Nat) (v : Nat) : List Nat :=
  (b32EncLoop bs v 0).1 ++ b32FinalChunk (b32EncLoop bs v 0).2.1 (b32EncLoop bs v 0).2.2

theorem base32EncodeSyms_eq_from (bs : List Nat) : base32EncodeSyms bs = encSymsFrom bs 0 := by
  rw [base32EncodeSyms, encSymsFrom]

set_option maxHeartbeats 2000000 in
/-- One 5-byte block: the encoder starting at `bits = 0` emits eight
symbols, returns to `bits = 0`, and the symbol decoder recovers exactly the
five bytes (from any starting accumulator), also returning to `bits = 0`. -/
theorem round5 (v w b1 b2 b3 b4 b5 : Nat)
    (h1 : b1 < 256) (h2 : b2 < 256) (h3 : b3 < 256) (h4 : b4 < 256) (h5 : b5 < 256) :
    (b32EncLoop [b1, b2, b3, b4, b5] v 0).2.2 = 0 ∧
    (b32DecSymsT (b32EncLoop [b1, b2, b3, b4, b5] v 0).1 w 0).1 = [b1, b2, b3, b4, b5] ∧
    (b32DecSymsT (b32EncLoop [b1, b2, b3, b4, b5] v 0).1 w 0).2.2 = 0 := by
  simp only [b32EncLoop, b32EmitLoop]
  norm_num
  simp only [b32DecSymsT]
  norm_num
  simp only [and31_eq, and255_eq]
  simp (disch := omega) only [shl8_or_eq, shl5_or_eq]
  simp only [shr_eq_div]
  norm_num
  simp only [M32]
  omega

theorem roundTail0 (v w : Nat) : (b32DecSymsT (encSymsFrom [] v) w 0).1 = [] := rfl

theorem roundTail1 (v w b1 : Nat) (h1 : b1 < 256) :
    (b32DecSymsT (encSymsFrom [b1] v) w 0).1 = [b1] := by
  simp only [encSymsFrom, b32EncLoop, b32EmitLoop, b32FinalChunk]
  norm_num
  simp only [b32DecSymsT]
  norm_num
  simp only [and31_eq, and255_eq]
  simp (disch := omega) only [shl8_or_eq, shl5_or_eq]
  simp only [shr_eq_div, Nat.shiftLeft_eq]
  norm_num
  simp only [M32]
  omega

theorem roundTail2 (v w b1 b2 : Nat) (h1 : b1 < 256) (h2 : b2 < 256) :
    (b32DecSymsT (encSymsFrom [b1, b2] v) w 0).1 = [b1, b2] := by
  simp only [encSymsFrom, b32EncLoop, b32EmitLoop, b32FinalChunk]
  norm_num
  simp only [b32DecSymsT]
  norm_num
  simp only [and31_eq, and255_eq]
  simp (disch := omega) only [shl8_or_eq, shl5_or_eq]
  simp only [shr_eq_div, Nat.shiftLeft_eq]
  norm_num
  simp only [M32]
  omega

theorem roundTail3 (v w b1 b2 b3 : Nat) (h1 : b1 < 256) (h2 : b2 < 256) (h3 : b3 < 256) :
    (b32DecSymsT (encSymsFrom [b1, b2, b3] v) w 0).1 = [b1, b2, b3] := by
  simp only [encSymsFrom, b32EncLoop, b32EmitLoop, b32FinalChunk]
  norm_num
  simp only [b32DecSymsT]
  norm_num
  simp only [and31_eq, and255_eq]
  simp (disch := omega) only [shl8_or_eq, shl5_or_eq]
  simp only [shr_eq_div, Nat.shiftLeft_eq]
  norm_num
  simp only [M32]
  omega

set_option maxHeartbeats 2000000 in
theorem roundTail4 (v w b1 b2 b3 b4 : Nat)
    (h1 : b1 < 256) (h2 : b2 < 256) (h3 : b3 < 256) (h4 : b4 < 256) :
    (b32DecSymsT (encSymsFrom [b1, b2, b3, b4] v) w 0).1 = [b1, b2, b3, b4] := by
  simp only [encSymsFrom, b32EncLoop, b32EmitLoop, b32FinalChunk]
  norm_num
  simp only [b32DecSymsT]
  norm_num
  simp only [and31_eq, and255_eq]
  simp (disch := omega) only [shl8_or_eq, shl5_or_eq]
  simp only [shr_eq_div, Nat.shiftLeft_eq]
  norm_num
  simp only [M32]
  omega

/-- Core round-trip at the symbol level: decoding the encoded symbol stream
of any byte list recovers it, for any starting encoder and decoder
accumulators. -/
theorem decode_encSyms (n : Nat) : ∀ (bs : List Nat), bs.length < n → (∀ b ∈ bs, b < 256) →
    ∀ v w, (b32DecSymsT (encSymsFrom bs v) w 0).1 = bs := by
  induction n with
  | zero => intro bs h; omega
  | succ n ih =>
      intro bs hlen hb v w
      match bs with
      | [] => exact roundTail0 v w
      | [b1] => exact roundTail1 v w b1 (hb b1 (by simp))
      | [b1, b2] => exact roundTail2 v w b1 b2 (hb b1 (by simp)) (hb b2 (by simp))
      | [b1, b2, b3] =>
          exact roundTail3 v w b1 b2 b3 (hb b1 (by simp)) (hb b2 (by simp)) (hb b3 (by simp))
      | [b1, b2, b3, b4] =>
          exact roundTail4 v w b1 b2 b3 b4 (hb b1 (by simp)) (hb b2 (by simp)) (hb b3 (by simp))
            (hb b4 (by simp))
      | b1 :: b2 :: b3 :: b4 :: b5 :: rest =>
          have hb1 := hb b1 (by simp)
          have hb2 := hb b2 (by simp)
          have hb3 := hb b3 (by simp)
          have hb4 := hb b4 (by simp)
          have hb5 := hb b5 (by simp)
          obtain ⟨hk5, hdec5, hdbits5⟩ := round5 v w b1 b2 b3 b4 b5 hb1 hb2 hb3 hb4 hb5
          have hsplit : (b1 :: b2 :: b3 :: b4 :: b5 :: rest) =
              [b1, b2, b3, b4, b5] ++ rest := rfl
          rw [hsplit, encSymsFrom, b32EncLoop_append]
          set e5 := b32EncLoop [b1, b2, b3, b4, b5] v 0 with he5
          rw [hk5]
          set er := b32EncLoop rest e5.2.1 0 with her
          rw [List.append_assoc, b32DecSymsT_append]
          set d5 := b32DecSymsT e5.1 w 0 with hd5
          rw [hdec5, hdbits5]
          have hrest : (b32DecSymsT (er.1 ++ b32FinalChunk er.2.1 er.2.2) d5.2.1 0).1 = rest := by
            have := ih rest (by simp at hlen; omega) (fun b hmem => hb b (by simp [hmem]))
              e5.2.1 d5.2.1
            rw [encSymsFrom] at this
            exact this
          rw [hrest]

/-! ### Emitted symbols are 5-bit values -/

theorem b32EmitLoop_mem_lt : ∀ (fuel v k s : Nat), s ∈ (b32EmitLoop fuel v k).1 → s < 32 := by
  intro fuel
  induction fuel with
  | zero => intro v k s h; simp [b32EmitLoop] at h
  | succ fuel ih =>
      intro v k s h
      rw [b32EmitLoop] at h
      by_cases hb : 5 ≤ k
      · rw [if_pos hb] at h
        simp only [List.mem_cons] at h
        rcases h with h | h
        · rw [h, and31_eq]; omega
        · exact ih v (k - 5) s h
      · rw [if_neg hb] at h
        simp at h

theorem b32EncLoop_mem_lt : ∀ (bs : List Nat) (v k s : Nat),
    s ∈ (b32EncLoop bs v k).1 → s < 32 := by
  intro bs
  induction bs with
  | nil => intro v k s h; simp [b32EncLoop] at h
  | cons b rest ih =>
      intro v k s h
      rw [b32EncLoop] at h
      simp only [List.mem_append] at h
      rcases h with h | h
      · exact b32EmitLoop_mem_lt _ _ _ s h
      · exact ih _ _ s h

theorem base32EncodeSyms_mem_lt (bs : List Nat) : ∀ s ∈ base32EncodeSyms bs, s < 32 := by
  intro s h
  rw [base32EncodeSyms_eq_from, encSymsFrom] at h
  simp only [List.mem_append] at h
  rcases h with h | h
  · exact b32EncLoop_mem_lt bs 0 0 s h
  · rw [b32FinalChunk] at h
    by_cases hb : 0 < (b32EncLoop bs 0 0).2.2
    · rw [if_pos hb] at h
      simp only [List.mem_cons, List.not_mem_nil, or_false] at h
      rw [h, and31_eq]
      omega
    · rw [if_neg hb] at h
      simp at h

/-! ### The alphabet rendering round-trips -/

/-- Alphabet characters are uppercase, map back to their own index, and are
never `=`. -/
theorem alphabet_facts : ∀ s : Nat, s < 32 →
    Char.toUpper (base32Alphabet.getD s 'A') = base32Alphabet.getD s 'A' ∧
    alphaIdx (base32Alphabet.getD s 'A') = some s ∧
    base32Alphabet.getD s 'A' ≠ '=' := by decide

theorem filterMap_alphaIdx_render : ∀ (syms : List Nat), (∀ s ∈ syms, s < 32) →
    ((syms.map (fun i => base32Alphabet.getD i 'A')).filterMap alphaIdx) = syms := by
  intro syms
  induction syms with
  | nil => intro _; rfl
  | cons s ss ih =>
      intro h
      rw [List.map_cons, List.filterMap_cons, (alphabet_facts s (h s (by simp))).2.1,
        ih (fun u hu => h u (by simp [hu]))]

theorem map_toUpper_render (syms : List Nat) (h : ∀ s ∈ syms, s < 32) :
    (syms.map (fun i => base32Alphabet.getD i 'A')).map Char.toUpper =
      syms.map (fun i => base32Alphabet.getD i 'A') := by
  rw [List.map_map]
  apply List.map_congr_left
  intro s hs
  exact (alphabet_facts s (h s hs)).1

/-! ### Trailing `=` stripping -/

theorem strip_of_ne (l : List Char) (h : ∀ c ∈ l, c ≠ '=') : stripTrailingEq l = l := by
  rw [stripTrailingEq]
  cases hrev : l.reverse with
  | nil =>
      have : l = [] := by simpa using congrArg List.reverse hrev
      simp [this]
  | cons c t =>
      have hc : c ∈ l := by rw [← List.mem_reverse, hrev]; simp
      rw [List.dropWhile_cons, if_neg (by simp [h c hc]), ← hrev, List.reverse_reverse]

theorem dropWhile_eq_replicate_append :
    ∀ (m : Nat) (x : List Char),
      List.dropWhile (fun c => c == '=') (List.replicate m '=' ++ x) =
        List.dropWhile (fun c => c == '=') x := by
  intro m
  induction m with
  | zero => intro x; rfl
  | succ m ih =>
      intro x
      rw [List.replicate_succ, List.cons_append, List.dropWhile_cons, if_pos (by simp)]
      exact ih x

theorem strip_append_replicate (l : List Char) (n : Nat) :
    stripTrailingEq (l ++ List.replicate n '=') = stripTrailingEq l := by
  rw [stripTrailingEq, stripTrailingEq, List.reverse_append, List.reverse_replicate,
    dropWhile_eq_replicate_append]

theorem strip_decomp (l : List Char) :
    ∃ m, l = stripTrailingEq l ++ List.replicate m '=' := by
  refine ⟨(l.reverse.takeWhile (fun c => c == '=')).length, ?_⟩
  have hsplit := List.takeWhile_append_dropWhile (p := fun c => c == '=') (l := l.reverse)
  have htw : (l.reverse.takeWhile (fun c => c == '=')).reverse =
      List.replicate (l.reverse.takeWhile (fun c => c == '=')).length '=' := by
    rw [List.eq_replicate_of_mem (a := '=')
      (l := (l.reverse.takeWhile (fun c => c == '=')).reverse) ?_]
    · rw [List.length_reverse]
    · intro b hb
      rw [List.mem_reverse] at hb
      have := List.mem_takeWhile_imp hb
      simpa using this
  calc l = l.reverse.reverse := by rw [List.reverse_reverse]
    _ = (l.reverse.takeWhile (fun c => c == '=') ++
          l.reverse.dropWhile (fun c => c == '=')).reverse := by rw [hsplit]
    _ = stripTrailingEq l ++ List.replicate
          (l.reverse.takeWhile (fun c => c == '=')).length '=' := by
        rw [List.reverse_append, stripTrailingEq, htw]

/-! ### Decoder permissiveness -/

/-- Skipping: the decoder ignores characters outside the alphabet. -/
theorem b32DecLoop_filter : ∀ (l : List Char) (v k : Nat),
    b32DecLoop l v k = b32DecLoop (l.filter (fun c => (alphaIdx c).isSome)) v k := by
  intro l
  induction l with
  | nil => intro v k; rfl
  | cons c cs ih =>
      intro v k
      cases h : alphaIdx c with
      | none =>
          rw [List.filter_cons, if_neg (by simp [h])]
          simp only [b32DecLoop, h, ih]
      | some idx =>
          rw [List.filter_cons, if_pos (by simp [h])]
          simp only [b32DecLoop, h]
          by_cases hb : 8 ≤ k + 5
          · simp [hb, ih]
          · simp [hb, ih]

theorem alphaIdx_isSome_eq_contains (c : Char) :
    (alphaIdx c).isSome = base32Alphabet.contains c := by
  by_cases h : c ∈ base32Alphabet
  · have h1 : (alphaIdx c).isSome = true := by
      rw [alphaIdx, List.findIdx?_isSome, List.any_eq_true]
      exact ⟨c, h, by simp⟩
    have h2 : base32Alphabet.contains c = true :=
      List.contains_iff_exists_mem_beq.mpr ⟨c, h, by simp⟩
    rw [h1, h2]
  · have h1 : alphaIdx c = none := by
      rw [alphaIdx, List.findIdx?_eq_none_iff]
      intro x hx
      simp only [beq_eq_false_iff_ne, ne_eq]
      intro he
      exact h (he ▸ hx)
    have h2 : base32Alphabet.contains c = false := by
      by_contra hcon
      simp only [Bool.not_eq_false, List.contains_iff_exists_mem_beq] at hcon
      rcases hcon with ⟨b, hb, hbeq⟩
      exact h (by simpa using (eq_of_beq hbeq) ▸ hb)
    rw [h1, h2]
    rfl

theorem mem_alphabet_ne_eq : ∀ c ∈ base32Alphabet, c ≠ '=' := by decide

/-! ### Case folding -/

theorem toNat_ofNat_valid {n : Nat} (h : n < 55296) : (Char.ofNat n).toNat = n := by
  rw [Char.ofNat, dif_pos (Or.inl h)]
  rfl

/-- Lowercasing then uppercasing agrees with direct uppercasing (basic latin,
as JavaScript's codec inputs are). -/
theorem toUpper_toLower (c : Char) : c.toLower.toUpper = c.toUpper := by
  rw [Char.toLower, Char.toUpper, Char.toUpper]
  by_cases h : 65 ≤ c.toNat ∧ c.toNat ≤ 90
  · rw [if_pos h]
    have hv : (Char.ofNat (c.toNat + 32)).toNat = c.toNat + 32 :=
      toNat_ofNat_valid (by omega)
    rw [if_pos (by rw [hv]; omega), if_neg (by omega), hv]
    have : c.toNat + 32 - 32 = c.toNat := by omega
    rw [this, Char.ofNat_toNat]
  · rw [if_neg h]

/-! ### String plumbing -/

theorem toList_asString (l : List Char) : (List.asString l).toList = l := rfl

theorem toList_append (s t : String) : (s ++ t).toList = s.toList ++ t.toList := rfl

/-- Decoding the rendered symbol stream recovers the bytes: the common core
of the C2 round-trip parts. -/
theorem decode_render_core (bs : List Nat) (hb : ∀ b ∈ bs, b < 256) :
    b32DecLoop (stripTrailingEq
      (((base32EncodeSyms bs).map (fun i => base32Alphabet.getD i 'A')).map Char.toUpper))
      0 0 = bs := by
  have hlt := base32EncodeSyms_mem_lt bs
  rw [map_toUpper_render _ hlt]
  rw [strip_of_ne _ (fun c hc => by
    rcases List.mem_map.mp hc with ⟨s, hs, rfl⟩
    exact (alphabet_facts s (hlt s hs)).2.2)]
  rw [b32DecLoop_eq_syms, filterMap_alphaIdx_render _ hlt, base32EncodeSyms_eq_from]
  exact decode_encSyms (bs.length + 1) bs (by omega) hb 0 0

/-- Stripping trailing `=` does not change the decoded symbol stream. -/
theorem filter_isSome_strip (l : List Char) :
    (stripTrailingEq l).filter (fun c => (alphaIdx c).isSome) =
      l.filter (fun c => (alphaIdx c).isSome) := by
  obtain ⟨m, hm⟩ := strip_decomp l
  have hnil : (List.replicate m '=').filter (fun c => (alphaIdx c).isSome) = [] := by
    rw [List.filter_eq_nil_iff]
    intro a ha
    rw [List.eq_of_mem_replicate ha]
    decide
  conv_rhs => rw [hm]
  rw [List.filter_append, hnil, List.append_nil]

/-- C2.  The Base32 codec round-trips: decoding an encoding (with or without
appended `=` padding) recovers the bytes; the decoder is case-insensitive
and silently skips every character outside the alphabet.  (The decoder is a
total function by construction — no input errors.) -/
theorem c2_base32_codec :
    (∀ bs : List Nat, bs.length ≤ 64 → (∀ b ∈ bs, b < 256) →
      base32Decode (base32Encode bs) = bs ∧
      (∀ n : Nat, base32Decode (base32Encode bs ++ (List.replicate n '=').asString) = bs)) ∧
    (∀ s : String, base32Decode ((s.toList.map Char.toLower).asString) = base32Decode s) ∧
    (∀ s : String, base32Decode s =
      base32Decode ((s.toList.filter (fun c => base32Alphabet.contains c.toUpper)).asString)) := by
  refine ⟨fun bs _ hb => ⟨?_, fun n => ?_⟩, fun s => ?_, fun s => ?_⟩
  · rw [base32Decode, base32Encode, toList_asString]
    exact decode_render_core bs hb
  · rw [base32Decode, base32Encode, toList_append, toList_asString, toList_asString,
      List.map_append, List.map_replicate]
    have he : Char.toUpper '=' = '=' := rfl
    rw [he, strip_append_replicate]
    exact decode_render_core bs hb
  · rw [base32Decode, base32Decode, toList_asString, List.map_map]
    have hmap : s.toList.map (Char.toUpper ∘ Char.toLower) = s.toList.map Char.toUpper :=
      List.map_congr_left (fun c _ => toUpper_toLower c)
    rw [hmap]
  · rw [base32Decode, base32Decode, toList_asString]
    conv_lhs => rw [b32DecLoop_filter]
    conv_rhs => rw [b32DecLoop_filter]
    congr 1
    rw [filter_isSome_strip, filter_isSome_strip]
    have hmapfil : (s.toList.filter (fun c => base32Alphabet.contains c.toUpper)).map
        Char.toUpper = (s.toList.map Char.toUpper).filter
          (fun c => base32Alphabet.contains c) := by
      conv_rhs => rw [List.filter_map]
      rfl
    rw [hmapfil, List.filter_filter]
    apply List.filter_congr
    intro c _
    rw [alphaIdx_isSome_eq_contains]
    cases base32Alphabet.contains c <;> rfl

/-- C2 witness at the bytes of "foobar". -/
theorem c2_witness :
    base32Decode (base32Encode [102, 111, 111, 98, 97, 114]) = [102, 111, 111, 98, 97, 114] ∧
    (∀ n : Nat, base32Decode (base32Encode [102, 111, 111, 98, 97, 114] ++
      (List.replicate n '=').asString) = [102, 111, 111, 98, 97, 114]) :=
  c2_base32_codec.1 [102, 111, 111, 98, 97, 114] (by decide) (by decide)

/-- Sanity anchor: the canonical RFC 4648 test vector, unpadded. -/
theorem base32Encode_foobar :
    base32Encode [102, 111, 111, 98, 97, 114] = "MZXW6YTBOI" := by rfl

/-- C5 witness: six sessions with distinct ids and activity times; the cap
step leaves five active and deactivates the least-recently-active one. -/
theorem c5_witness :
    getActiveSessionCount (enforceSessionCap
      [⟨1, 10, true⟩, ⟨2, 20, true⟩, ⟨3, 30, true⟩, ⟨4, 40, true⟩, ⟨5, 50, true⟩,
       ⟨6, 60, true⟩]) = 5 ∧
    (∀ u ∈ enforceSessionCap
      [⟨1, 10, true⟩, ⟨2, 20, true⟩, ⟨3, 30, true⟩, ⟨4, 40, true⟩, ⟨5, 50, true⟩,
       ⟨6, 60, true⟩], u.id = (⟨1, 10, true⟩ : Session).id → u.isActive = false) :=
  c5_session_cap.2
    [⟨1, 10, true⟩, ⟨2, 20, true⟩, ⟨3, 30, true⟩, ⟨4, 40, true⟩, ⟨5, 50, true⟩, ⟨6, 60, true⟩]
    ⟨1, 10, true⟩ (by decide) (by decide) (by decide) (by decide) (by decide) (by decide)

end Treasuretto
